import Mathlib

/-!
Verification of the srt-translator subtitle translation pipeline.

This file gives a shallow embedding, in Lean 4, of the core text-protection,
translation-strategy, gap-finding and job-orchestration code of the
repository, and proves (or refutes) the behavioural claims made by its
specification.

Modelling conventions:
* Python strings are modelled as `List Char` (`Str`); Python `str.replace`,
  `str.find`, `str.split`, `str.strip` and the concrete regular expressions
  used by the code are implemented directly on `Str`.
* Python dicts (insertion ordered, assignment overwrites in place) are
  modelled as association lists with an update-or-append insertion.
* `datetime.timedelta` values are modelled as rational numbers of seconds.
  All comparisons carried out by the gap finder on the concrete inputs
  treated here are far from the float rounding error of the original, so the
  rational model is faithful on them.
* Sets of configured terms are modelled as lists in iteration order.
-/

namespace SrtTranslator

/-- Python strings as lists of characters. -/
abbrev Str := List Char

/-- Characters treated as whitespace by Python `str.strip` / `\s`
(ASCII part; the repository only ever strips ASCII whitespace). -/
def pyWS (c : Char) : Bool :=
  c = ' ' || c = '\t' || c = '\n' || c = '\r' || c = '\x0b' || c = '\x0c'

/-- Python `str.strip()` with no arguments. -/
def pyStrip (s : Str) : Str :=
  (s.dropWhile pyWS).reverse.dropWhile pyWS |>.reverse

/-- Python regex word character `\w` for the scripts the repository uses
(ASCII letters, digits, underscore, and the Greek and Coptic block). -/
def wordChar (c : Char) : Bool :=
  c.isAlphanum || c = '_' || (0x370 ≤ c.toNat && c.toNat ≤ 0x3FF)

/-- Wordness of an optional preceding character; the start of the string
counts as a non-word position for `\b`. -/
def wordOpt : Option Char → Bool
  | none => false
  | some c => wordChar c

/-- Case folding used to model `re.IGNORECASE` on the characters appearing
in this repository: ASCII letters, the Greek and Coptic uppercase letters,
and the final-sigma identification that Python applies under IGNORECASE. -/
def foldChar (c : Char) : Char :=
  let n := c.toNat
  let low : Nat :=
    if 0x41 ≤ n && n ≤ 0x5A then n + 0x20
    else if 0x391 ≤ n && n ≤ 0x3A9 && n ≠ 0x3A2 then n + 0x20
    else if n = 0x386 then 0x3AC
    else if n = 0x388 then 0x3AD
    else if n = 0x389 then 0x3AE
    else if n = 0x38A then 0x3AF
    else if n = 0x38C then 0x3CC
    else if n = 0x38E then 0x3CD
    else if n = 0x38F then 0x3CE
    else n
  let low := if low = 0x3C2 then 0x3C3 else low
  Char.ofNat low

/-- Character comparison, case sensitive or folding, depending on the flag. -/
def chEq (ci : Bool) (a b : Char) : Bool :=
  if ci then foldChar a = foldChar b else a = b

/-- Does `pat` occur as a prefix of `s`, comparing with `chEq ci`. -/
def ciIsPrefixOf (ci : Bool) : Str → Str → Bool
  | [], _ => true
  | _ :: _, [] => false
  | p :: ps, c :: cs => chEq ci p c && ciIsPrefixOf ci ps cs

/-- Python `pat in s` (substring containment), for nonempty `pat`. -/
def hasSub (pat : Str) : Str → Bool
  | [] => pat.isEmpty
  | c :: t => ciIsPrefixOf false pat (c :: t) || hasSub pat t

/-- A `chEq`-prefix is no longer than the string it matches. -/
theorem ciIsPrefixOf_length_le (ci : Bool) :
    ∀ p q : Str, ciIsPrefixOf ci p q = true → p.length ≤ q.length := by
  intro p
  induction p with
  | nil => intro q _; simp
  | cons a ps ih =>
    intro q hq
    cases q with
    | nil => simp [ciIsPrefixOf] at hq
    | cons b qs =>
      simp only [ciIsPrefixOf, Bool.and_eq_true] at hq
      simpa [List.length_cons] using Nat.succ_le_succ (ih qs hq.2)

/-- Fuelled scanner behind `replaceAll`; the fuel bounds the number of
characters still to be scanned, so the recursion is structural and the
function reduces inside the kernel. -/
def replaceAllGo (pat rep : Str) : Nat → Str → Str
  | _, [] => []
  | 0, s => s
  | fuel + 1, c :: t =>
    if pat ≠ [] ∧ ciIsPrefixOf false pat (c :: t) then
      rep ++ replaceAllGo pat rep fuel ((c :: t).drop pat.length)
    else
      c :: replaceAllGo pat rep fuel t

/-- Python `s.replace(old, new)` for a nonempty pattern: replace every
non-overlapping occurrence, scanning left to right.  (For an empty pattern
this returns the string unchanged; the repository never replaces an empty
pattern.) -/
def replaceAll (pat rep s : Str) : Str :=
  replaceAllGo pat rep s.length s

/-- Python `s.replace(old, new, 1)` for a nonempty pattern: replace only the
leftmost occurrence. -/
def replaceFirst (pat rep : Str) : Str → Str
  | [] => []
  | c :: t =>
    if pat ≠ [] ∧ ciIsPrefixOf false pat (c :: t) then
      rep ++ (c :: t).drop pat.length
    else
      c :: replaceFirst pat rep t

/-- Slice off everything up to and including the first `>` character:
`splitAtGt t = some (mid, rest)` when `t = mid ++ [gt] ++ rest` with no `>`
in `mid`.  Models the greedy match of the tag pattern body. -/
def splitAtGt : Str → Option (Str × Str)
  | [] => none
  | c :: t =>
    if c = '>' then some ([], t)
    else (splitAtGt t).map (fun p => (c :: p.1, p.2))

/-- Fuelled scanner behind `tagScan`. -/
def tagScanGo : Nat → Str → List Str
  | _, [] => []
  | 0, _ => []
  | fuel + 1, c :: t =>
    if c = '<' then
      match splitAtGt t with
      | some (mid, rest) => ('<' :: (mid ++ ['>'])) :: tagScanGo fuel rest
      | none => tagScanGo fuel t
    else tagScanGo fuel t

/-- All matches of the tag regex `<[^>]*>` in scanning order, as matched
substrings (models `re.finditer` with this pattern). -/
def tagScan (s : Str) : List Str :=
  tagScanGo s.length s

/-- Characters allowed in the body of the entity regex `&[a-zA-Z0-9#]+;`. -/
def entChar (c : Char) : Bool :=
  c.isAlphanum || c = '#'

/-- Fuelled scanner behind `entScan`. -/
def entScanGo : Nat → Str → List Str
  | _, [] => []
  | 0, _ => []
  | fuel + 1, c :: t =>
    if c = '&' then
      match t.dropWhile entChar with
      | ';' :: rest2 =>
        if (t.takeWhile entChar).isEmpty then entScanGo fuel t
        else ('&' :: (t.takeWhile entChar ++ [';'])) :: entScanGo fuel rest2
      | _ => entScanGo fuel t
    else entScanGo fuel t

/-- All matches of the entity regex `&[a-zA-Z0-9#]+;` in scanning order. -/
def entScan (s : Str) : List Str :=
  entScanGo s.length s

/-- Fuelled scanner behind `termSpans`: non-overlapping, word-boundary
delimited occurrences of a literal term (models `re.finditer` over
`\b re.escape(term) \b`, with the IGNORECASE flag when `ci` is set).
Returns `(start, stop)` spans.  The scanner carries the absolute position
`p` of the current suffix and the character immediately before it, which
decides the left `\b`. -/
def termScanGo (ci : Bool) (term : Str) : Nat → Str → Nat → Option Char → List (Nat × Nat)
  | _, [], _, _ => []
  | 0, _, _, _ => []
  | fuel + 1, c :: t, p, prev =>
    if term.isEmpty then []
    else
      let s := c :: t
      let bdStart := wordOpt prev != wordChar c
      if ciIsPrefixOf ci term s && bdStart then
        let matched := s.take term.length
        let rest := s.drop term.length
        let lastCh := matched.getLast?.getD c
        let bdEnd := wordChar lastCh != wordOpt rest.head?
        if bdEnd then
          (p, p + term.length) :: termScanGo ci term fuel rest (p + term.length) (some lastCh)
        else
          termScanGo ci term fuel t (p + 1) (some c)
      else
        termScanGo ci term fuel t (p + 1) (some c)

/-- All boundary-delimited matches of a literal term in a string. -/
def termSpans (ci : Bool) (term s : Str) : List (Nat × Nat) :=
  termScanGo ci term s.length s 0 none

/-- `s[:start] + ins + s[stop:]`. -/
def splice (s : Str) (start stop : Nat) (ins : Str) : Str :=
  s.take start ++ ins ++ s.drop stop

/-! ### Python dicts as insertion-ordered association lists -/

/-- A Python dict from placeholder names to original substrings. -/
abbrev RMap := List (Str × Str)

/-- Python `d[k] = v`: overwrite in place when the key exists, else append. -/
def dictInsert (m : RMap) (k v : Str) : RMap :=
  if m.any (fun p => decide (p.1 = k)) then
    m.map (fun p => if p.1 = k then (k, v) else p)
  else
    m ++ [(k, v)]

/-- The keys of a dict, in insertion order (Python `d.keys()`). -/
def dictKeys (m : RMap) : List Str :=
  m.map Prod.fst

/-- Python `d[k]` (defaulting to the empty string for an absent key, a case
the embedded code never exercises). -/
def dictGet (m : RMap) (k : Str) : Str :=
  ((m.find? (fun p => decide (p.1 = k))).map Prod.snd).getD []

/-- Python `d.update(d2)`. -/
def dictUpdate (m m2 : RMap) : RMap :=
  m2.foldl (fun acc p => dictInsert acc p.1 p.2) m

/-- Python string `<` (lexicographic on code points). -/
def strLt : Str → Str → Bool
  | [], [] => false
  | [], _ :: _ => true
  | _ :: _, [] => false
  | a :: xs, b :: ys =>
    if a.toNat < b.toNat then true
    else if a.toNat = b.toNat then strLt xs ys
    else false

/-- Insert into an ascending-sorted list of strings. -/
def insertSorted (x : Str) : List Str → List Str
  | [] => [x]
  | y :: ys => if strLt y x then y :: insertSorted x ys else x :: y :: ys

/-- Python `sorted(d.keys())`. -/
def sortKeys (m : RMap) : List Str :=
  (dictKeys m).foldr insertSorted []

/-! ### PlaceholderManager (src/srt_chatgpt_translator/placeholders.py) -/

/-- Decimal rendering of the placeholder counter. -/
def natStr (n : Nat) : Str :=
  (toString n).data

/-- `self.tag_placeholder.format(counter)` with pattern `HTMLTAG_`. -/
def tag_placeholder (n : Nat) : Str :=
  "HTMLTAG_".data ++ natStr n

/-- `self.entity_placeholder.format(counter)` with pattern `HTMLENTITY_`. -/
def entity_placeholder (n : Nat) : Str :=
  "HTMLENTITY_".data ++ natStr n

/-- `self.matching_placeholder.format(counter)` with pattern `MATCHINGTERM_`. -/
def matching_placeholder (n : Nat) : Str :=
  "MATCHINGTERM_".data ++ natStr n

/-- The state of a `PlaceholderManager`.  `matching_terms` is the
iteration order of the Python set; `replacement_mapping` is the
post-translation substitution dict. -/
structure PlaceholderManager where
  matching_terms : List Str
  case_insensitive : Bool
  replacement_mapping : RMap

/-- One iteration of the term loop of `_protect_matching_terms`: find all
boundary-delimited matches of `term` in the current text and replace them
from the rightmost backward, assigning placeholder counters in that
(reversed) order. -/
def protect_one_term (ci : Bool) (term : Str) (st : Str × RMap × Nat) :
    Str × RMap × Nat :=
  if pyStrip term = [] then st
  else
    let spans := termSpans ci term st.1
    spans.reverse.foldl
      (fun (acc : Str × RMap × Nat) sp =>
        let matched := (acc.1.take sp.2).drop sp.1
        let ph := matching_placeholder acc.2.2
        (splice acc.1 sp.1 sp.2 ph, dictInsert acc.2.1 ph matched, acc.2.2 + 1))
      st

/-- `PlaceholderManager._protect_matching_terms`. -/
def protect_matching_terms (pm : PlaceholderManager) (text : Str) (reps : RMap)
    (start_counter : Nat) : Str × RMap :=
  if pm.matching_terms = [] then (text, reps)
  else
    let r := pm.matching_terms.foldl
      (fun acc term => protect_one_term pm.case_insensitive term acc)
      (text, reps, start_counter)
    (r.1, r.2.1)

/-- `PlaceholderManager.protect_text`: protect tags, then entities, then
matching terms.  Tag and entity matches are located in the original text
but replaced (first occurrence) in the evolving protected text, exactly as
the source does. -/
def protect_text (pm : PlaceholderManager) (text : Str) : Str × RMap :=
  let s1 := (tagScan text).foldl
    (fun (acc : Str × RMap × Nat) tag =>
      let ph := tag_placeholder acc.2.2
      (replaceFirst tag ph acc.1, dictInsert acc.2.1 ph tag, acc.2.2 + 1))
    (text, ([] : RMap), 0)
  let s2 := (entScan text).foldl
    (fun (acc : Str × RMap × Nat) ent =>
      let ph := entity_placeholder acc.2.2
      (replaceFirst ent ph acc.1, dictInsert acc.2.1 ph ent, acc.2.2 + 1))
    s1
  protect_matching_terms pm s2.1 s2.2.1 s2.2.2

/-- `PlaceholderManager.restore_text`: replace every placeholder key by its
recorded original, iterating over the keys in ascending sorted order. -/
def restore_text (text : Str) (reps : RMap) : Str :=
  (sortKeys reps).foldl (fun acc k => replaceAll k (dictGet reps k) acc) text

/-- A manager with no matching terms and no replacement mapping (the
default configuration used by the backend when no matching file is given). -/
def defaultPM : PlaceholderManager :=
  { matching_terms := [], case_insensitive := false, replacement_mapping := [] }

example :
    (protect_text defaultPM "Hello <i>world</i>!".data).1 =
      "Hello HTMLTAG_0worldHTMLTAG_1!".data := by decide

example :
    restore_text (protect_text defaultPM "Hello <i>world</i>!".data).1
      (protect_text defaultPM "Hello <i>world</i>!".data).2 =
      "Hello <i>world</i>!".data := by decide

/-! ### CreditsDetector (backend/core/credits.py)

The ten credit regular expressions are hand-compiled to deterministic
matchers; for each of them greedy matching never needs backtracking
(an optional letter is never also whitespace, whitespace is never the
following literal), so the deterministic readings below are exact. -/

/-- Consume a literal case-insensitively. -/
def eatCI (lit s : Str) : Option Str :=
  if ciIsPrefixOf true lit s then some (s.drop lit.length) else none

/-- Consume an optional single character (`x?`), case-insensitively. -/
def eatOptCI (c : Char) (s : Str) : Str :=
  match s with
  | x :: t => if chEq true c x then t else s
  | [] => []

/-- Consume `\s+` (greedy). -/
def eatWS1 (s : Str) : Option Str :=
  match s with
  | c :: t => if pyWS c then some (t.dropWhile pyWS) else none
  | [] => none

/-- Consume `\s*` (greedy). -/
def eatWS0 (s : Str) : Str :=
  s.dropWhile pyWS

/-- Consume one character from a character class, case-insensitively. -/
def eatClassCI (cs : List Char) (s : Str) : Option Str :=
  match s with
  | x :: t => if cs.any (fun c => chEq true c x) then some t else none
  | [] => none

/-- Consume one literal character, case-insensitively. -/
def eatChar (c : Char) (s : Str) : Option Str :=
  match s with
  | x :: t => if chEq true c x then some t else none
  | [] => none

/-- `\b` after a word character: end of string or a non-word character. -/
def bdAfterWord (s : Str) : Bool :=
  match s with
  | [] => true
  | c :: _ => !wordChar c

/-- `\bP\s+by\b` for a stem `P` with an optional trailing letter, the shape
of the three English `... by` patterns. -/
def patStemBy (stem : Str) (opt : Char) (s : Str) : Bool :=
  match eatCI stem s with
  | none => false
  | some r =>
    match eatWS1 (eatOptCI opt r) with
    | none => false
    | some r2 =>
      match eatCI "by".data r2 with
      | none => false
      | some r3 => bdAfterWord r3

/-- `\bP\s*:` , the shape of the three `...:` patterns. -/
def patStemColon (stem : Str) (s : Str) : Bool :=
  match eatCI stem s with
  | none => false
  | some r => (eatChar ':' (eatWS0 r)).isSome

/-- `\bP\b` for a literal Greek stem. -/
def patStemBd (stem : Str) (s : Str) : Bool :=
  match eatCI stem s with
  | none => false
  | some r => bdAfterWord r

/-- `\bP[class]\b`. -/
def patStemClassBd (stem : Str) (cls : List Char) (s : Str) : Bool :=
  match eatCI stem s with
  | none => false
  | some r =>
    match eatClassCI cls r with
    | none => false
    | some r2 => bdAfterWord r2

/-- Does any of the ten credit patterns match at this exact position?
`prev` is the character before the position; every pattern starts with
`\b` followed by a word character, so the left boundary holds exactly when
`prev` is non-word. -/
def creditAt (prev : Option Char) (s : Str) : Bool :=
  !wordOpt prev &&
    (patStemBy "translate".data 'd' s ||
     patStemBy "subtitle".data 's' s ||
     patStemBy "sub".data 's' s ||
     patStemColon "translator".data s ||
     patStemColon "translation".data s ||
     patStemColon "subtitle".data s ||
     patStemBd "μετάφραση".data s ||
     patStemClassBd "υπότιτλο".data ['ι', 'σ', 'τ'] s ||
     patStemClassBd "μεταφραστή".data ['ς', 'σ'] s ||
     patStemBd "μετέφρασε".data s)

/-- Fuelled position scan behind `searchCredit`. -/
def creditSearchGo : Nat → Str → Option Char → Bool
  | _, [], _ => false
  | 0, _, _ => false
  | fuel + 1, c :: t, prev => creditAt prev (c :: t) || creditSearchGo fuel t (some c)

/-- `pattern.search(text)` tried for all ten credit patterns. -/
def searchCredit (s : Str) : Bool :=
  creditSearchGo s.length s none

/-- `CreditsDetector.is_credit_line`. -/
def is_credit_line (text : Str) : Bool :=
  if text = [] || pyStrip text = [] then false else searchCredit text

/-- `CreditsDetector.replacement_text`. -/
def replacement_text (translator_name : Str) : Str :=
  "Translated by ".data ++ translator_name ++ " with AI".data

/-- `CreditsDetector.process_subtitle_lines`. -/
def credits_process (translator_name : Str) (lines : List Str)
    (replace_credits : Bool) : List Str :=
  if !replace_credits then lines
  else lines.map (fun l =>
    if is_credit_line l then replacement_text translator_name else l)

example : is_credit_line "Subtitles by John".data = true := by decide

example : is_credit_line "<i>a".data = false := by decide

/-! ### WordRemover (backend/core/word_removal.py) -/

/-- `re.search(r'[^\w\s]', word)` as a boolean. -/
def hasNonWordNonSpace (w : Str) : Bool :=
  w.any (fun c => !wordChar c && !pyWS c)

/-- Fuelled scanner behind `ciSubAll`. -/
def ciSubGo (pat : Str) : Nat → Str → Str
  | _, [] => []
  | 0, s => s
  | fuel + 1, c :: t =>
    if !pat.isEmpty && ciIsPrefixOf true pat (c :: t) then
      ciSubGo pat fuel ((c :: t).drop pat.length)
    else
      c :: ciSubGo pat fuel t

/-- `re.sub(re.escape(pat), '', s, flags=re.IGNORECASE)`: delete every
non-overlapping, case-insensitive occurrence. -/
def ciSubAll (pat s : Str) : Str :=
  ciSubGo pat s.length s

/-- `re.sub(r'\b' + re.escape(pat) + r'\b', rep, s)` (optionally
IGNORECASE): replace every boundary-delimited occurrence.  The spans are
located in one scan and substituted from the rightmost backward, which
agrees with the left-to-right rebuild done by `re.sub`. -/
def boundarySub (ci : Bool) (pat rep s : Str) : Str :=
  (termSpans ci pat s).reverse.foldl (fun acc sp => splice acc sp.1 sp.2 rep) s

/-- `.` `!` `?` `,` `:` `;` — the class of the space-before-punctuation
cleanup. -/
def punct1 (c : Char) : Bool :=
  c = '.' || c = '!' || c = '?' || c = ',' || c = ':' || c = ';'

/-- `.` `!` `?` — the class of the duplicate-punctuation cleanup. -/
def punct2 (c : Char) : Bool :=
  c = '.' || c = '!' || c = '?'

/-- Fuelled `re.sub(r'\s+', ' ', s)`. -/
def collapseWSGo : Nat → Str → Str
  | _, [] => []
  | 0, s => s
  | fuel + 1, c :: t =>
    if pyWS c then ' ' :: collapseWSGo fuel (t.dropWhile pyWS)
    else c :: collapseWSGo fuel t

/-- Fuelled `re.sub(r'\s+([.!?,:;])', r'\1', s)`. -/
def spaceBeforePunctGo : Nat → Str → Str
  | _, [] => []
  | 0, s => s
  | fuel + 1, c :: t =>
    if pyWS c then
      match t.dropWhile pyWS with
      | p :: r2 =>
        if punct1 p then p :: spaceBeforePunctGo fuel r2
        else c :: spaceBeforePunctGo fuel t
      | [] => c :: spaceBeforePunctGo fuel t
    else c :: spaceBeforePunctGo fuel t

/-- Fuelled `re.sub(r'([.!?])\s*([.!?])', r'\1', s)`. -/
def dupPunctGo : Nat → Str → Str
  | _, [] => []
  | 0, s => s
  | fuel + 1, c :: t =>
    if punct2 c then
      match t.dropWhile pyWS with
      | p :: r2 =>
        if punct2 p then c :: dupPunctGo fuel r2
        else c :: dupPunctGo fuel t
      | [] => c :: dupPunctGo fuel t
    else c :: dupPunctGo fuel t

/-- The position just after the last newline inside the whitespace run at
the head of `t`, if that run contains one (the backtracking target of
`\n\s*\n`). -/
def lastNlInRun (t : Str) : Option Str :=
  let run := t.takeWhile pyWS
  let idx := run.reverse.findIdx? (fun c => decide (c = '\n'))
  idx.map (fun i => t.drop (run.length - i))

/-- Fuelled `re.sub(r'\n\s*\n', '\n', s)`. -/
def collapseNlGo : Nat → Str → Str
  | _, [] => []
  | 0, s => s
  | fuel + 1, c :: t =>
    if c = '\n' then
      match lastNlInRun t with
      | some rest => '\n' :: collapseNlGo fuel rest
      | none => c :: collapseNlGo fuel t
    else c :: collapseNlGo fuel t

/-- `WordRemover.remove_words_from_text`: delete each configured word
(plain case-insensitive substring match when it contains a character that
is neither a word character nor whitespace, boundary-delimited match
otherwise), then normalise whitespace and punctuation. -/
def remove_words_from_text (removal_words : List Str) (text : Str) : Str :=
  if removal_words = [] || text = [] then text
  else
    let r := removal_words.foldl
      (fun acc w =>
        if hasNonWordNonSpace w then ciSubAll w acc
        else boundarySub true w [] acc)
      text
    let r := collapseWSGo r.length r
    let r := spaceBeforePunctGo r.length r
    let r := dupPunctGo r.length r
    let r := collapseNlGo r.length r
    pyStrip r

/-- `WordRemover.process_subtitle_lines`. -/
def wr_process (removal_words : List Str) (lines : List Str) : List Str :=
  if removal_words = [] then lines
  else
    let processed := lines.foldl
      (fun acc line =>
        let cleaned := remove_words_from_text removal_words line
        if cleaned ≠ [] then acc ++ [cleaned] else acc)
      []
    if processed = [] ∧ lines ≠ [] then [[]] else processed

/-! ### apply_replacements (placeholders.py) -/

/-- Stable insertion for the longest-source-first ordering used by
`apply_replacements` (Python `sorted(..., key=len, reverse=True)`). -/
def insertLenDesc (x : Str × Str) : List (Str × Str) → List (Str × Str)
  | [] => [x]
  | y :: ys =>
    if y.1.length > x.1.length then y :: insertLenDesc x ys
    else x :: y :: ys

/-- `sorted(mapping.items(), key=len(source), reverse=True)`, stable. -/
def sortLenDesc (l : List (Str × Str)) : List (Str × Str) :=
  l.foldr insertLenDesc []

/-- `PlaceholderManager.apply_replacements`: post-translation word
substitution, longest source first, word-boundary delimited. -/
def apply_replacements (pm : PlaceholderManager) (text : Str) : Str :=
  if pm.replacement_mapping = [] then text
  else
    (sortLenDesc pm.replacement_mapping).foldl
      (fun acc p =>
        if pyStrip p.1 = [] ∨ pyStrip p.2 = [] then acc
        else boundarySub pm.case_insensitive p.1 p.2 acc)
      text

/-! ### SRTTranslator.translate_subtitle (backend/core/translate.py) -/

/-- Python `content.split(chr(10))`. -/
def splitNl : Str → List Str
  | [] => [[]]
  | c :: t =>
    if c = '\n' then [] :: splitNl t
    else
      match splitNl t with
      | h :: r => (c :: h) :: r
      | [] => [[c]]

/-- Python `(chr(10)).join(lines)`. -/
def joinNl : List Str → Str
  | [] => []
  | [l] => l
  | l :: r => l ++ '\n' :: joinNl r

/-- A subtitle cue (the fields of `srt.Subtitle` the core manipulates;
times in rational seconds). -/
structure Subtitle where
  index : Int
  start : ℚ
  endTime : ℚ
  content : Str
deriving DecidableEq

/-- The state of a backend `SRTTranslator`: the translation capability
(already specialised to a language pair, as `self.client.translate_lines`
is in `translate_subtitle`), the placeholder manager, and the
preprocessor configuration. -/
structure SRTTranslator where
  client : List Str → List Str
  pm : PlaceholderManager
  removal_words : List Str
  replace_credits : Bool
  translator_name : Str

/-- `SRTTranslator.translate_subtitle`: credits pass, word-removal pass,
per-line protection merged into one cue-level replacement map, the
translation call, restoration of every line against the merged map, the
post-translation substitution pass, and reassembly with unchanged index
and times. -/
def translate_subtitle (t : SRTTranslator) (sub : Subtitle) : Subtitle :=
  let original_lines := splitNl sub.content
  let processed := credits_process t.translator_name original_lines t.replace_credits
  let processed := wr_process t.removal_words processed
  let step := processed.foldl
    (fun (acc : List Str × RMap) line =>
      let pr := protect_text t.pm line
      (acc.1 ++ [pr.1], dictUpdate acc.2 pr.2))
    ([], [])
  let translated := t.client step.1
  let restored := translated.map (fun l => restore_text l step.2)
  let final_lines := restored.map (fun l => apply_replacements t.pm l)
  { index := sub.index, start := sub.start, endTime := sub.endTime,
    content := joinNl final_lines }

/-- The identity translation capability together with the default manager
and preprocessor configuration. -/
def identityTranslator : SRTTranslator :=
  { client := fun lines => lines, pm := defaultPM, removal_words := [],
    replace_credits := true, translator_name := "Ntamas".data }

/-! ### Claims C1, C2 and C10: the protection codec -/

/-- A line with eleven ordinary markup tags; protecting it generates the
placeholder counters 0 through 10. -/
def elevenTags : Str :=
  "<a><b><c><d><e><f><g><h><i><j><k>".data

/-- C1 (code bug): the round trip `restore_text(protect_text(s))` is NOT
the identity for every string.  On a line with eleven tags the protected
text carries the placeholders `HTMLTAG_0` … `HTMLTAG_10`; restoration
iterates over the keys in ascending lexicographic order, which puts
`HTMLTAG_1` before `HTMLTAG_10`, and the replace-all of `HTMLTAG_1` also
rewrites the prefix of `HTMLTAG_10`, leaving `<b>0` where `<k>` should
have been restored.  (The repository test suite asserts the round trip,
and `apply_replacements` sorts longest-first precisely to avoid this
partial-match collision, so the ascending sort in `restore_text` is a
slip of the code, not of the specification.) -/
theorem c1_round_trip_fails_at_eleven_tags :
    (protect_text defaultPM elevenTags).1 =
      ("HTMLTAG_0HTMLTAG_1HTMLTAG_2HTMLTAG_3HTMLTAG_4HTMLTAG_5" ++
        "HTMLTAG_6HTMLTAG_7HTMLTAG_8HTMLTAG_9HTMLTAG_10").data ∧
    restore_text (protect_text defaultPM elevenTags).1
        (protect_text defaultPM elevenTags).2 =
      "<a><b><c><d><e><f><g><h><i><j><b>0".data ∧
    restore_text (protect_text defaultPM elevenTags).1
        (protect_text defaultPM elevenTags).2 ≠ elevenTags := by
  refine ⟨by decide, by decide, by decide⟩

/-- The two-line cue on which the cue-level merged placeholder map is
observable: each line protects one tag, and both protection calls hand
out the same placeholder name. -/
def collidingCue : Subtitle :=
  { index := 1, start := 0, endTime := 2, content := "<i>a\n<b>b".data }

/-- C2 (code bug): placeholder tokens generated for different lines of the
same cue DO collide, and a cue translated by the identity capability does
not come back unchanged.  Both lines of the cue protect their tag as
`HTMLTAG_0` (the counter restarts for every protection call);
`translate_subtitle` merges the two maps with `dict.update`, so the second
line's entry overwrites the first and restoration rewrites the first
line's token with the second line's tag. -/
theorem c2_placeholder_maps_collide_across_lines :
    (protect_text defaultPM "<i>a".data).2 =
      [("HTMLTAG_0".data, "<i>".data)] ∧
    (protect_text defaultPM "<b>b".data).2 =
      [("HTMLTAG_0".data, "<b>".data)] ∧
    (translate_subtitle identityTranslator collidingCue).content =
      "<b>a\n<b>b".data ∧
    (translate_subtitle identityTranslator collidingCue).content ≠
      collidingCue.content := by
  refine ⟨by decide, by decide, by decide, by decide⟩

/-- Replacing an absent pattern is the identity. -/
theorem replaceAllGo_of_not_hasSub (pat rep : Str) :
    ∀ (fuel : Nat) (s : Str), hasSub pat s = false →
      replaceAllGo pat rep fuel s = s := by
  intro fuel
  induction fuel with
  | zero =>
    intro s _
    cases s <;> rfl
  | succ fuel ih =>
    intro s h
    cases s with
    | nil => rfl
    | cons c t =>
      simp only [hasSub, Bool.or_eq_false_iff] at h
      rw [replaceAllGo]
      rw [if_neg]
      · rw [ih t h.2]
      · intro hcon
        rw [h.1] at hcon
        exact absurd hcon.2 (by simp)

/-- Replacing an absent pattern is the identity (wrapper form). -/
theorem replaceAll_of_not_hasSub (pat rep s : Str) (h : hasSub pat s = false) :
    replaceAll pat rep s = s :=
  replaceAllGo_of_not_hasSub pat rep s.length s h

/-- Membership in an insertion-sorted list comes from the inserted element
or the base list. -/
theorem mem_insertSorted (x k : Str) :
    ∀ l : List Str, k ∈ insertSorted x l → k = x ∨ k ∈ l := by
  intro l
  induction l with
  | nil =>
    intro h
    simp [insertSorted] at h
    exact Or.inl h
  | cons y ys ih =>
    intro h
    by_cases hc : strLt y x = true
    · simp only [insertSorted, hc, if_pos, List.mem_cons] at h
      rcases h with h | h
      · exact Or.inr (by simp [h])
      · rcases ih h with h2 | h2
        · exact Or.inl h2
        · exact Or.inr (by simp [h2])
    · simp only [insertSorted, hc, if_neg, Bool.not_eq_true, List.mem_cons] at h
      rcases h with h | h
      · exact Or.inl h
      · exact Or.inr (by simpa using h)

/-- The sorted key list only contains keys of the map. -/
theorem mem_sortKeys (m : RMap) (k : Str) :
    k ∈ sortKeys m → k ∈ dictKeys m := by
  unfold sortKeys
  generalize dictKeys m = ks
  induction ks with
  | nil => intro h; simp at h
  | cons x xs ih =>
    intro h
    simp only [List.foldr_cons] at h
    rcases mem_insertSorted x k _ h with h2 | h2
    · simp [h2]
    · exact List.mem_cons_of_mem x (ih h2)

/-- C10 (amended): `restore_text` is a total function, and whenever no key
of the supplied map occurs anywhere in the text it returns the text
unchanged; in particular a placeholder-like substring that does not
contain any key of the map is left as it is, and such a map has no effect
at all.  (The unamended claim is refuted by
`c10_restore_text_counterexample`.) -/
theorem c10_restore_text_id_of_no_key_occurs (text : Str) (m : RMap)
    (h : ∀ k ∈ dictKeys m, hasSub k text = false) :
    restore_text text m = text := by
  unfold restore_text
  have hks : ∀ k ∈ sortKeys m, hasSub k text = false :=
    fun k hk => h k (mem_sortKeys m k hk)
  generalize hg : sortKeys m = ks at hks
  clear hg
  induction ks with
  | nil => rfl
  | cons k ks ih =>
    simp only [List.foldl_cons]
    rw [replaceAll_of_not_hasSub k (dictGet m k) text (hks k (by simp))]
    exact ih (fun k2 hk2 => hks k2 (by simp [hk2]))

/-- C10 witness: a concrete unknown-placeholder text on which the amended
theorem applies. -/
theorem c10_restore_text_id_witness :
    (∀ k ∈ dictKeys [("HTMLTAG_2".data, "<b>".data)],
      hasSub k "see HTMLTAG_10 here".data = false) ∧
    restore_text "see HTMLTAG_10 here".data [("HTMLTAG_2".data, "<b>".data)] =
      "see HTMLTAG_10 here".data :=
  ⟨by decide, c10_restore_text_id_of_no_key_occurs _ _ (by decide)⟩

/-- C10 counterexample: as stated, the claim is false.  `HTMLTAG_10` is a
placeholder-like substring that is not a key of the map
`[HTMLTAG_1 ↦ X]`, yet restoration rewrites it to `X0`; and the entry
`cb ↦ Z`, whose key does not occur in the text `ab`, still changes the
result, because the earlier substitution `a ↦ c` manufactures an
occurrence of `cb`. -/
theorem c10_restore_text_counterexample :
    restore_text "HTMLTAG_10".data [("HTMLTAG_1".data, "X".data)] = "X0".data ∧
    hasSub "HTMLTAG_10".data
      (restore_text "HTMLTAG_10".data [("HTMLTAG_1".data, "X".data)]) = false ∧
    restore_text "ab".data
      [("a".data, "c".data), ("cb".data, "Z".data)] = "Z".data ∧
    restore_text "ab".data [("a".data, "c".data)] = "cb".data := by
  refine ⟨by decide, by decide, by decide, by decide⟩

/-! ### Claim C3: the three-tier translation strategy

`OpenAITranslationClient.translate_lines` (openai_client.py) and
`ClaudeTranslationClient.translate_lines` (claude_client.py) have the same
control flow; the network and JSON-parsing internals of each tier are
abstracted into oracles: the batch tier and the indexed tier each either
raise (`Except.error`) or produce the parsed `lines_translated` array, and
the single-line tier is an oracle indexed by line position and attempt
number.  A tier that succeeds with the wrong number of lines is modelled
by an `ok` result of that wrong length, exactly the case the length check
guards. -/

/-- Python `line.find(pat)` as an option. -/
def findSub (pat : Str) : Str → Option Nat
  | [] => if pat.isEmpty then some 0 else none
  | c :: t =>
    if ciIsPrefixOf false pat (c :: t) then some 0
    else (findSub pat t).map (· + 1)

/-- Strip the `[n] ` marker from an indexed-tier line: find the first
`"] "` and keep everything after it, or keep the line unmodified. -/
def stripIndexMark (l : Str) : Str :=
  match findSub "] ".data l with
  | some i => l.drop (i + 2)
  | none => l

/-- `all(not line.strip() for line in lines)`. -/
def pyAllBlank (lines : List Str) : Bool :=
  lines.all (fun l => decide (pyStrip l = []))

/-- The retry loop of `_translate_line_by_line` for one line: `remaining`
counts the iterations the `for attempt in range(max_retries)` loop still
has; on success the loop breaks with the translation, on the failure of
the last attempt it appends the original line, and if the range is empty
it appends nothing. -/
def attemptLoopGo (single : Nat → Except Unit Str) (line : Str)
    (max_retries : Nat) : Nat → Nat → Option Str
  | 0, _ => none
  | remaining + 1, attempt =>
    match single attempt with
    | .ok t => some t
    | .error _ =>
      if attempt = max_retries - 1 then some line
      else attemptLoopGo single line max_retries remaining (attempt + 1)

/-- The whole retry loop for one line. -/
def attemptLoop (single : Nat → Except Unit Str) (line : Str)
    (max_retries : Nat) : Option Str :=
  attemptLoopGo single line max_retries max_retries 0

/-- `_translate_line_by_line`: blank lines pass through untouched, other
lines go through the retry loop. -/
def translate_line_by_line (single : Nat → Nat → Except Unit Str)
    (max_retries : Nat) (lines : List Str) : List Str :=
  lines.enum.foldl
    (fun acc il =>
      if pyStrip il.2 = [] then acc ++ [il.2]
      else
        match attemptLoop (single il.1) il.2 max_retries with
        | some t => acc ++ [t]
        | none => acc)
    []

namespace OpenAIClient

/-- `OpenAITranslationClient.translate_lines`: batch tier, then indexed
tier (with marker stripping), then the per-line tier. -/
def translate_lines (batch idx : Except Unit (List Str))
    (single : Nat → Nat → Except Unit Str) (max_retries : Nat)
    (lines : List Str) : List Str :=
  if lines = [] ∨ pyAllBlank lines then lines
  else
    let afterBatch :=
      match idx with
      | .ok raw =>
        let stripped := raw.map stripIndexMark
        if stripped.length = lines.length then stripped
        else translate_line_by_line single max_retries lines
      | .error _ => translate_line_by_line single max_retries lines
    match batch with
    | .ok r => if r.length = lines.length then r else afterBatch
    | .error _ => afterBatch

end OpenAIClient

namespace ClaudeClient

/-- `ClaudeTranslationClient.translate_lines`: the same three tiers with
the same length guards. -/
def translate_lines (batch idx : Except Unit (List Str))
    (single : Nat → Nat → Except Unit Str) (max_retries : Nat)
    (lines : List Str) : List Str :=
  if lines = [] ∨ pyAllBlank lines then lines
  else
    let afterBatch :=
      match idx with
      | .ok raw =>
        let stripped := raw.map stripIndexMark
        if stripped.length = lines.length then stripped
        else translate_line_by_line single max_retries lines
      | .error _ => translate_line_by_line single max_retries lines
    match batch with
    | .ok r => if r.length = lines.length then r else afterBatch
    | .error _ => afterBatch

end ClaudeClient

/-- With at least one attempt available and the invariant
`attempt + remaining = max_retries`, the retry loop always appends
something. -/
theorem attemptLoopGo_isSome (single : Nat → Except Unit Str) (line : Str)
    (mr : Nat) :
    ∀ remaining attempt, 0 < remaining → attempt + remaining = mr →
      (attemptLoopGo single line mr remaining attempt).isSome := by
  intro remaining
  induction remaining with
  | zero => intro attempt h _; omega
  | succ rem ih =>
    intro attempt _ hsum
    rw [attemptLoopGo]
    cases hs : single attempt with
    | ok t => simp
    | error e =>
      by_cases hl : attempt = mr - 1
      · simp [hl]
      · have hrem : 0 < rem := by omega
        simp only [hl, if_neg, if_false]
        exact ih (attempt + 1) hrem (by omega)

/-- With a positive retry bound the loop appends exactly one line. -/
theorem attemptLoop_isSome (single : Nat → Except Unit Str) (line : Str)
    (mr : Nat) (h : 0 < mr) : (attemptLoop single line mr).isSome :=
  attemptLoopGo_isSome single line mr mr 0 h (by omega)

/-- When every attempt fails, the loop falls back to the original line. -/
theorem attemptLoopGo_all_fail (single : Nat → Except Unit Str) (line : Str)
    (mr : Nat) (hf : ∀ a, a < mr → single a = .error ()) :
    ∀ remaining attempt, 0 < remaining → attempt + remaining = mr →
      attemptLoopGo single line mr remaining attempt = some line := by
  intro remaining
  induction remaining with
  | zero => intro attempt h _; omega
  | succ rem ih =>
    intro attempt _ hsum
    rw [attemptLoopGo]
    rw [hf attempt (by omega)]
    by_cases hl : attempt = mr - 1
    · simp [hl]
    · have hrem : 0 < rem := by omega
      simp only [hl, if_neg, if_false]
      exact ih (attempt + 1) hrem (by omega)

/-- When every attempt fails, the per-line tier keeps the original line. -/
theorem attemptLoop_all_fail (single : Nat → Except Unit Str) (line : Str)
    (mr : Nat) (h : 0 < mr) (hf : ∀ a, a < mr → single a = .error ()) :
    attemptLoop single line mr = some line :=
  attemptLoopGo_all_fail single line mr hf mr 0 h (by omega)

/-- Closed form of the per-line tier for a positive retry bound: each
input line produces exactly one output line, blank lines unchanged. -/
theorem translate_line_by_line_eq (single : Nat → Nat → Except Unit Str)
    (mr : Nat) (h : 0 < mr) (lines : List Str) :
    translate_line_by_line single mr lines =
      lines.enum.map (fun il =>
        if pyStrip il.2 = [] then il.2
        else (attemptLoop (single il.1) il.2 mr).getD il.2) := by
  unfold translate_line_by_line
  have main : ∀ (l : List (Nat × Str)) (acc : List Str),
      l.foldl
        (fun acc il =>
          if pyStrip il.2 = [] then acc ++ [il.2]
          else
            match attemptLoop (single il.1) il.2 mr with
            | some t => acc ++ [t]
            | none => acc)
        acc =
      acc ++ l.map (fun il =>
        if pyStrip il.2 = [] then il.2
        else (attemptLoop (single il.1) il.2 mr).getD il.2) := by
    intro l
    induction l with
    | nil => intro acc; simp
    | cons x xs ih =>
      intro acc
      simp only [List.foldl_cons, List.map_cons]
      by_cases hb : pyStrip x.2 = []
      · rw [if_pos hb, if_pos hb, ih]
        simp
      · rw [if_neg hb, if_neg hb]
        have hsome := attemptLoop_isSome (single x.1) x.2 mr h
        cases hval : attemptLoop (single x.1) x.2 mr with
        | none => rw [hval] at hsome; simp at hsome
        | some t =>
          rw [ih]
          simp
  rw [main]
  simp

/-- C3: for every non-empty, not-all-blank batch of lines the output of
`translate_lines` has the length of the input, whichever tier produced
it, for the OpenAI client and for the Claude client alike; the per-line
tier produces exactly one output line per input line, passes blank lines
through unchanged, and a line whose every attempt fails comes back as the
original line. -/
theorem c3_translate_lines_length_invariant
    (batch idx : Except Unit (List Str)) (single : Nat → Nat → Except Unit Str)
    (mr : Nat) (lines : List Str) (hmr : 0 < mr)
    (hne : lines ≠ []) (hnb : pyAllBlank lines = false) :
    (OpenAIClient.translate_lines batch idx single mr lines).length =
      lines.length ∧
    (ClaudeClient.translate_lines batch idx single mr lines).length =
      lines.length ∧
    translate_line_by_line single mr lines =
      lines.enum.map (fun il =>
        if pyStrip il.2 = [] then il.2
        else (attemptLoop (single il.1) il.2 mr).getD il.2) ∧
    (∀ (sl : Nat → Except Unit Str) (line : Str),
      (∀ a, a < mr → sl a = .error ()) → attemptLoop sl line mr = some line) := by
  have hlen : (translate_line_by_line single mr lines).length = lines.length := by
    rw [translate_line_by_line_eq single mr hmr lines]
    simp [List.length_map, List.enum_length]
  refine ⟨?_, ?_, translate_line_by_line_eq single mr hmr lines,
    fun sl line hf => attemptLoop_all_fail sl line mr hmr hf⟩
  · unfold OpenAIClient.translate_lines
    split_ifs with h0
    · rfl
    · cases batch with
      | ok r =>
        by_cases hr : r.length = lines.length
        · simp [hr]
        · simp only [hr, if_neg, if_false]
          cases idx with
          | ok raw =>
            by_cases hs : raw.length = lines.length
            · simp [hs]
            · simp [hs, hlen]
          | error e => simpa using hlen
      | error e =>
        cases idx with
        | ok raw =>
          by_cases hs : raw.length = lines.length
          · simp [hs]
          · simp [hs, hlen]
        | error e2 => simpa using hlen
  · unfold ClaudeClient.translate_lines
    split_ifs with h0
    · rfl
    · cases batch with
      | ok r =>
        by_cases hr : r.length = lines.length
        · simp [hr]
        · simp only [hr, if_neg, if_false]
          cases idx with
          | ok raw =>
            by_cases hs : raw.length = lines.length
            · simp [hs]
            · simp [hs, hlen]
          | error e => simpa using hlen
        | error e =>
        cases idx with
        | ok raw =>
          by_cases hs : raw.length = lines.length
          · simp [hs]
          · simp [hs, hlen]
        | error e2 => simpa using hlen

/-- C3 witness: the length invariant applied to a concrete two-line batch
whose batch tier returns the wrong number of lines and whose indexed tier
raises, so the per-line tier decides the result. -/
theorem c3_translate_lines_length_witness :
    (0 < 3) ∧ (["hello".data, "".data] ≠ ([] : List Str)) ∧
    (pyAllBlank ["hello".data, "".data] = false) ∧
    (OpenAIClient.translate_lines (.ok ["x".data]) (.error ())
      (fun _ _ => .error ()) 3 ["hello".data, "".data]).length = 2 :=
  ⟨by decide, by decide, by decide,
    (c3_translate_lines_length_invariant (.ok ["x".data]) (.error ())
      (fun _ _ => .error ()) 3 ["hello".data, "".data]
      (by decide) (by decide) (by decide)).1⟩

/-! ### Claim C4: the gap finder (`SRTTranslator._find_best_gap_for_credits`) -/

/-- One candidate of the `all_gaps` list built by the gap finder. -/
structure GapEntry where
  idx : Int
  gap : ℚ
  cstart : ℚ
  cend : ℚ
  dist : ℚ
  inZone : Bool
deriving DecidableEq

/-- The adjacent pairs `(subtitles[i], subtitles[i+1])`. -/
def adjacentPairs : List Subtitle → List (Subtitle × Subtitle)
  | a :: b :: rest => (a, b) :: adjacentPairs (b :: rest)
  | _ => []

/-- The `all_gaps` list of `_find_best_gap_for_credits`: for every adjacent
pair, keep the gap when it is at least the minimum (strictly shorter gaps
are discarded) and the centred three-second credit window does not overlap
either neighbour; record the insert-after display index, the gap length,
the window, the distance of the gap midpoint to the timeline centre, and
whether that midpoint lies in the centre zone. -/
def all_gaps (subs : List Subtitle) (min_gap : ℚ) : List GapEntry :=
  match subs.head?, subs.getLast? with
  | some first, some last =>
    let total := last.endTime - first.start
    let centre := first.start + total / 2
    let zone_start := first.start + total / 3
    let zone_end := first.start + 2 * total / 3
    (adjacentPairs subs).filterMap (fun pr =>
      let gap := pr.2.start - pr.1.endTime
      if gap < min_gap then none
      else
        let mid := pr.1.endTime + gap / 2
        let cs := mid - 3 / 2
        let ce := mid + 3 / 2
        if cs < pr.1.endTime ∨ ce > pr.2.start then none
        else some
          { idx := pr.1.index, gap := gap, cstart := cs, cend := ce,
            dist := |mid - centre|,
            inZone := decide (zone_start ≤ mid ∧ mid ≤ zone_end) })
  | _, _ => []

/-- Python `min(l, key = f)`: the first element attaining the minimum. -/
def firstMinBy (f : GapEntry → ℚ) : List GapEntry → Option GapEntry
  | [] => none
  | g :: gs => some (gs.foldl (fun best x => if f x < f best then x else best) g)

/-- `SRTTranslator._find_best_gap_for_credits`: prefer candidates inside
the centre zone, choosing the one closest to the exact timeline centre,
falling back to the closest candidate anywhere; report no gap when no
candidate survives. -/
def find_best_gap_for_credits (subs : List Subtitle) (min_gap : ℚ) :
    Option Int × ℚ × Option ℚ × Option ℚ :=
  if subs.length < 2 then (none, 0, none, none)
  else
    match subs.head?, subs.getLast? with
    | some first, some last =>
      let total := last.endTime - first.start
      if total ≤ 0 then (none, 0, none, none)
      else
        let gaps := all_gaps subs min_gap
        match firstMinBy GapEntry.dist (gaps.filter (·.inZone)) with
        | some b => (some b.idx, b.gap, some b.cstart, some b.cend)
        | none =>
          match firstMinBy GapEntry.dist gaps with
          | some b => (some b.idx, b.gap, some b.cstart, some b.cend)
          | none => (none, 0, none, none)
    | _, _ => (none, 0, none, none)

/-- The three cues of the specification scenario: 0s–2s, 5s–7s, 20s–22s. -/
def gapCues : List Subtitle :=
  [{ index := 1, start := 0, endTime := 2, content := [] },
   { index := 2, start := 5, endTime := 7, content := [] },
   { index := 3, start := 20, endTime := 22, content := [] }]

/-- C4 counterexample: the claim says the 3-second gap 2s–5s is rejected
as too short; in the code only gaps strictly shorter than the minimum are
discarded, `3 < 3` fails, and the 2s–5s gap survives into the candidate
list (its window 2s–5s also touches both neighbours exactly, which the
strict overlap test admits). -/
theorem c4_three_second_gap_not_discarded :
    ¬ ((3 : ℚ) < 3) ∧
    (all_gaps gapCues 3).map GapEntry.idx = [1, 2] := by
  constructor
  · norm_num
  · norm_num [all_gaps, adjacentPairs, gapCues, List.filterMap]

/-- C4 (amended): on the cues 0s–2s, 5s–7s, 20s–22s with a 3 s minimum
gap, the 3 s gap 2s–5s survives the minimum-gap filter (only strictly
shorter gaps are discarded) as a candidate with window 2s–5s, but its
midpoint 3.5 s lies outside the centre zone 22/3 s – 44/3 s; the 13 s gap
7s–20s is selected, returning insert-after index 2 and the 3 s credit
window 12 s – 15 s centred on the gap midpoint 13.5 s, which lies inside
the centre zone. -/
theorem c4_gap_selection :
    all_gaps gapCues 3 =
      [{ idx := 1, gap := 3, cstart := 2, cend := 5, dist := 15 / 2,
         inZone := false },
       { idx := 2, gap := 13, cstart := 12, cend := 15, dist := 5 / 2,
         inZone := true }] ∧
    find_best_gap_for_credits gapCues 3 = (some 2, 13, some 12, some 15) ∧
    (22 / 3 : ℚ) ≤ (12 + 15) / 2 ∧ ((12 + 15) / 2 : ℚ) ≤ 44 / 3 := by
  have hgaps : all_gaps gapCues 3 =
      [{ idx := 1, gap := 3, cstart := 2, cend := 5, dist := 15 / 2,
         inZone := false },
       { idx := 2, gap := 13, cstart := 12, cend := 15, dist := 5 / 2,
         inZone := true }] := by
    norm_num [all_gaps, adjacentPairs, gapCues, List.filterMap]
  refine ⟨hgaps, ?_, by norm_num, by norm_num⟩
  simp only [gapCues] at hgaps
  norm_num [find_best_gap_for_credits, gapCues, hgaps, firstMinBy, List.filter]

/-! ### Claim C5: run_translation events (backend/services/translation_service.py)

Sequential model of `run_translation`.  The asyncio cancellation event is
a monotone flag: it is modelled by the optional step index `cA` at which it
becomes set, and `isSet cA t` samples it at checkpoint `t`.  Each file
iteration owns two checkpoints — the loop-top `cancel_event.is_set()`
check at time `2*i`, and the span of `_translate_file_parallel` at time
`2*i + 1` — and the final status check happens after the loop.  The
outcome of each file (missing input, success, exception, or a
`CancelledError` escaping the parallel translation) is an oracle, along
with the progress payloads emitted while the file is processed.  Progress
callbacks are modelled as a pure event log (the deployed callback,
`send_progress` in the WebSocket router, swallows its own exceptions);
the fallible-callback variant is treated separately under claim C8. -/

/-- The progress events of `run_translation`, tagged as the code tags its
payload dicts.  The two `cancelled` payloads are distinguished exactly as
the code emits them: the mid-file one carries the file name, the job-level
terminal one does not. -/
inductive Event where
  | progress (file : String) (current total : Nat)
  | file_complete (file : String)
  | error (file message : String)
  | cancelled_file (file message : String)
  | cancelled_job (message : String)
  | all_complete (files : List String)
deriving DecidableEq

/-- The terminal events of a job: `all_complete`, or the job-level
`cancelled` (the one without a file). -/
def isTerminalEvent : Event → Bool
  | .all_complete _ => true
  | .cancelled_job _ => true
  | _ => false

/-- How `_translate_file_parallel` ends for one file. -/
inductive FileResult where
  | okDone
  | exn (msg : String)
  | cancelledMid
deriving DecidableEq

/-- The oracle outcome for one file of the job. -/
inductive FOutcome where
  | missing
  | run (inner : List (Nat × Nat)) (res : FileResult)
deriving DecidableEq

/-- The job fields `run_translation` mutates. -/
structure JobState where
  status : String
  errors : List (String × String)
  completed : List String
deriving DecidableEq

/-- Python `job["errors"][filename] = msg`. -/
def dictInsertS (m : List (String × String)) (k v : String) :
    List (String × String) :=
  if m.any (fun p => decide (p.1 = k)) then
    m.map (fun p => if p.1 = k then (k, v) else p)
  else
    m ++ [(k, v)]

/-- Sampling the monotone cancellation flag at checkpoint `t`. -/
def isSet (cA : Option Nat) (t : Nat) : Bool :=
  match cA with
  | none => false
  | some T => decide (T ≤ t)

/-- The `for filename in job["files"]` loop of `run_translation`: break on
an already-set flag at the loop top, record and report a missing file and
continue, translate the file emitting its progress events, then either
record completion, record the error and continue, or break on a
`CancelledError` after reporting it for that file. -/
def runFiles (cA : Option Nat) :
    List (String × FOutcome) → Nat → JobState → List Event × JobState
  | [], _, st => ([], st)
  | (f, out) :: rest, t, st =>
    if isSet cA t then ([], st)
    else
      match out with
      | .missing =>
        let msg := "File not found: " ++ f
        let st2 := { st with errors := dictInsertS st.errors f msg }
        let r := runFiles cA rest (t + 2) st2
        (Event.error f msg :: r.1, r.2)
      | .run inner res =>
        let pevs := inner.map (fun p => Event.progress f p.1 p.2)
        match res with
        | .okDone =>
          let st2 := { st with completed := st.completed ++ [f] }
          let r := runFiles cA rest (t + 2) st2
          (pevs ++ Event.file_complete f :: r.1, r.2)
        | .exn m =>
          let st2 := { st with errors := dictInsertS st.errors f m }
          let r := runFiles cA rest (t + 2) st2
          (pevs ++ Event.error f m :: r.1, r.2)
        | .cancelledMid =>
          (pevs ++ [Event.cancelled_file f "Translation cancelled"], st)

/-- `run_translation` for an existing job: set the status to running, walk
the files, then emit exactly one terminal event and the matching terminal
status, depending on the final sample of the cancellation flag. -/
def run_translation (files : List (String × FOutcome)) (cA : Option Nat) :
    List Event × JobState :=
  let st0 : JobState := { status := "running", errors := [], completed := [] }
  let r := runFiles cA files 0 st0
  if isSet cA (2 * files.length + 1) then
    (r.1 ++ [Event.cancelled_job "Translation cancelled by user"],
     { r.2 with status := "cancelled" })
  else
    (r.1 ++ [Event.all_complete r.2.completed],
     { r.2 with status := "completed" })

/-- No event emitted inside the file loop is terminal. -/
theorem runFiles_no_terminal (cA : Option Nat) :
    ∀ (l : List (String × FOutcome)) (t : Nat) (st : JobState),
      ∀ e ∈ (runFiles cA l t st).1, isTerminalEvent e = false := by
  intro l
  induction l with
  | nil => intro t st e he; simp [runFiles] at he
  | cons x rest ih =>
    intro t st e he
    obtain ⟨f, out⟩ := x
    simp only [runFiles] at he
    by_cases hc : isSet cA t = true
    · rw [if_pos hc] at he
      simp at he
    · rw [if_neg hc] at he
      cases out with
      | missing =>
        simp only [List.mem_cons] at he
        rcases he with he | he
        · subst he; rfl
        · exact ih _ _ e he
      | run inner res =>
        cases res with
        | okDone =>
          simp only [List.mem_append, List.mem_cons, List.mem_map] at he
          rcases he with ⟨p, _, hp⟩ | he | he
          · subst hp; rfl
          · subst he; rfl
          · exact ih _ _ e he
        | exn m =>
          simp only [List.mem_append, List.mem_cons, List.mem_map] at he
          rcases he with ⟨p, _, hp⟩ | he | he
          · subst hp; rfl
          · subst he; rfl
          · exact ih _ _ e he
        | cancelledMid =>
          simp only [List.mem_append, List.mem_cons, List.mem_map,
            List.mem_singleton] at he
          rcases he with ⟨p, _, hp⟩ | he | he
          · subst hp; rfl
          · subst he; rfl
          · simp at he

/-- C5: for every job, `run_translation` emits exactly one terminal event,
which is `all_complete` when the cancellation signal was never set and the
job-level `cancelled` otherwise, and sets the matching terminal status;
and a per-file failure does not abort the job: a missing input file, or an
exception while translating a file, is recorded in the errors map under
that filename, reported with an `error` event for that file, and the loop
continues with the remaining files (the two unfolding equations). -/
theorem c5_run_translation_events (files : List (String × FOutcome))
    (cA : Option Nat) :
    ((run_translation files cA).1.countP isTerminalEvent = 1) ∧
    ((run_translation files cA).1.getLast? =
      some (if isSet cA (2 * files.length + 1) then
        Event.cancelled_job "Translation cancelled by user"
      else Event.all_complete (run_translation files cA).2.completed)) ∧
    (cA = none →
      (run_translation files cA).1.getLast? =
        some (Event.all_complete (run_translation files cA).2.completed)) ∧
    ((run_translation files cA).2.status =
      if isSet cA (2 * files.length + 1) then "cancelled" else "completed") ∧
    (∀ (f : String) (rest : List (String × FOutcome)) (t : Nat) (st : JobState),
      isSet cA t = false →
      runFiles cA ((f, FOutcome.missing) :: rest) t st =
        (Event.error f ("File not found: " ++ f) ::
          (runFiles cA rest (t + 2)
            { st with errors := dictInsertS st.errors f ("File not found: " ++ f) }).1,
         (runFiles cA rest (t + 2)
            { st with errors := dictInsertS st.errors f ("File not found: " ++ f) }).2)) ∧
    (∀ (f m : String) (inner : List (Nat × Nat)) (rest : List (String × FOutcome))
        (t : Nat) (st : JobState),
      isSet cA t = false →
      runFiles cA ((f, FOutcome.run inner (FileResult.exn m)) :: rest) t st =
        (inner.map (fun p => Event.progress f p.1 p.2) ++
          Event.error f m ::
            (runFiles cA rest (t + 2)
              { st with errors := dictInsertS st.errors f m }).1,
         (runFiles cA rest (t + 2)
            { st with errors := dictInsertS st.errors f m }).2)) := by
  have hcount : ∀ (l : List Event), (∀ e ∈ l, isTerminalEvent e = false) →
      l.countP isTerminalEvent = 0 :=
    fun l h => List.countP_eq_zero.mpr (fun e he => by simp [h e he])
  have hnt := runFiles_no_terminal cA files 0
    { status := "running", errors := [], completed := [] }
  refine ⟨?_, ?_, ?_, ?_, ?_, ?_⟩
  · unfold run_translation
    by_cases hc : isSet cA (2 * files.length + 1) = true
    · simp only [hc, if_pos]
      rw [List.countP_append, hcount _ hnt]
      rfl
    · simp only [hc, if_neg, Bool.not_eq_true, if_false]
      rw [List.countP_append, hcount _ hnt]
      rfl
  · unfold run_translation
    by_cases hc : isSet cA (2 * files.length + 1) = true
    · simp [hc]
    · simp [hc]
  · intro hnone
    unfold run_translation
    have hc : isSet cA (2 * files.length + 1) = false := by
      rw [hnone]; rfl
    simp [hc]
  · unfold run_translation
    by_cases hc : isSet cA (2 * files.length + 1) = true
    · simp [hc]
    · simp [hc]
  · intro f rest t st hc
    simp only [runFiles, hc, Bool.false_eq_true, if_false]
  · intro f m inner rest t st hc
    simp only [runFiles, hc, Bool.false_eq_true, if_false]

/-- C5 witness: the theorem applied to a two-file job, the first file
succeeding and the second missing, with the cancellation signal never
set. -/
theorem c5_run_translation_events_witness :
    ((run_translation [("a.srt", FOutcome.run [(0, 2), (1, 2), (2, 2)]
        FileResult.okDone), ("b.srt", FOutcome.missing)] none).1.countP
      isTerminalEvent = 1) ∧
    ((run_translation [("a.srt", FOutcome.run [(0, 2), (1, 2), (2, 2)]
        FileResult.okDone), ("b.srt", FOutcome.missing)] none).1.getLast? =
      some (Event.all_complete ["a.srt"])) := by
  have h := c5_run_translation_events
    [("a.srt", FOutcome.run [(0, 2), (1, 2), (2, 2)] FileResult.okDone),
     ("b.srt", FOutcome.missing)] none
  refine ⟨h.1, ?_⟩
  have h3 := h.2.2.1 rfl
  rw [h3]
  have : (run_translation [("a.srt", FOutcome.run [(0, 2), (1, 2), (2, 2)]
      FileResult.okDone), ("b.srt", FOutcome.missing)] none).2.completed =
      ["a.srt"] := by decide
  rw [this]

/-! ### Claim C6: the job status state machine

Sequential operation model over the in-memory job registry `_jobs`.
`create_job` installs a fresh pending job with a cleared cancellation
flag; `cancel_job` on an existing job sets the flag and the `cancelling`
status; `run_translation` on an existing job runs it to its terminal
status (the transient `running` lives inside the atomic step), where the
`midCancel` parameter of a run records whether `cancel_job` was invoked
concurrently while that run was in flight. -/

/-- The status and flag of one registry entry (the other job fields are
irrelevant to the status machine). -/
structure JobReg where
  status : String
  flag : Bool
deriving DecidableEq

/-- One external operation on the registry. -/
inductive JobOp where
  | create (id : Nat)
  | cancel (id : Nat)
  | run (id : Nat) (midCancel : Bool)
deriving DecidableEq

/-- The registry: job id to entry, insertion ordered. -/
abbrev Registry := List (Nat × JobReg)

/-- Python dict assignment on the registry. -/
def regInsert (m : Registry) (k : Nat) (v : JobReg) : Registry :=
  if m.any (fun p => decide (p.1 = k)) then
    m.map (fun p => if p.1 = k then (k, v) else p)
  else
    m ++ [(k, v)]

/-- Registry lookup. -/
def regGet (m : Registry) (k : Nat) : Option JobReg :=
  (m.find? (fun p => decide (p.1 = k))).map Prod.snd

/-- Apply one operation, following the source: `create_job` stores a
pending job with a fresh event; `cancel_job` sets the event and the
`cancelling` status when the job exists; `run_translation` returns at once
for an unknown id and otherwise drives the job to `cancelled` exactly when
the flag is set before or during the run, and to `completed` otherwise. -/
def applyOp (m : Registry) : JobOp → Registry
  | .create id => regInsert m id { status := "pending", flag := false }
  | .cancel id =>
    match regGet m id with
    | none => m
    | some j => regInsert m id { j with status := "cancelling", flag := true }
  | .run id mc =>
    match regGet m id with
    | none => m
    | some j =>
      let flagEnd := j.flag || mc
      regInsert m id
        { status := if flagEnd then "cancelled" else "completed",
          flag := flagEnd }

/-- Apply a sequence of operations to the empty registry. -/
def applyOps (ops : List JobOp) : Registry :=
  ops.foldl applyOp []

/-- Which job an operation touches. -/
def JobOp.target : JobOp → Nat
  | .create id => id
  | .cancel id => id
  | .run id _ => id

/-- Updating key `k` leaves lookups of other keys unchanged (in-place
branch). -/
theorem find?_keyUpdate_ne (k j : Nat) (v : JobReg) (h : j ≠ k) :
    ∀ m : Registry,
      (m.map (fun p => if p.1 = k then (k, v) else p)).find?
          (fun p => decide (p.1 = j)) =
        m.find? (fun p => decide (p.1 = j)) := by
  intro m
  induction m with
  | nil => rfl
  | cons x xs ih =>
    simp only [List.map_cons]
    by_cases hx : x.1 = k
    · rw [if_pos hx]
      rw [List.find?_cons_of_neg _ (by simp [Ne.symm h]),
        List.find?_cons_of_neg _ (by simp [hx, Ne.symm h])]
      exact ih
    · rw [if_neg hx]
      by_cases hj : x.1 = j
      · rw [List.find?_cons_of_pos _ (by simp [hj]),
          List.find?_cons_of_pos _ (by simp [hj])]
      · rw [List.find?_cons_of_neg _ (by simp [hj]),
          List.find?_cons_of_neg _ (by simp [hj])]
        exact ih

/-- Updating an existing key makes its lookup yield the new value. -/
theorem find?_keyUpdate_self (k : Nat) (v : JobReg) :
    ∀ m : Registry, m.any (fun p => decide (p.1 = k)) = true →
      (m.map (fun p => if p.1 = k then (k, v) else p)).find?
          (fun p => decide (p.1 = k)) = some (k, v) := by
  intro m
  induction m with
  | nil => intro hmem; simp at hmem
  | cons x xs ih =>
    intro hmem
    simp only [List.map_cons]
    by_cases hx : x.1 = k
    · rw [if_pos hx, List.find?_cons_of_pos _ (by simp)]
    · rw [if_neg hx, List.find?_cons_of_neg _ (by simp [hx])]
      apply ih
      simp only [List.any_cons, Bool.or_eq_true] at hmem
      rcases hmem with h1 | h2
      · exact absurd (by simpa using h1) hx
      · exact h2

/-- `regInsert` leaves other keys unchanged. -/
theorem regGet_regInsert_ne (m : Registry) (k : Nat) (v : JobReg) (j : Nat)
    (h : j ≠ k) : regGet (regInsert m k v) j = regGet m j := by
  unfold regGet regInsert
  by_cases hmem : m.any (fun p => decide (p.1 = k)) = true
  · rw [if_pos hmem, find?_keyUpdate_ne k j v h]
  · rw [if_neg hmem, List.find?_append]
    have h2 : ([(k, v)] : Registry).find? (fun p => decide (p.1 = j)) = none := by
      simp [Ne.symm h]
    rw [h2]
    cases m.find? (fun p => decide (p.1 = j)) <;> rfl

/-- `regInsert` makes its key map to its value. -/
theorem regGet_regInsert_self (m : Registry) (k : Nat) (v : JobReg) :
    regGet (regInsert m k v) k = some v := by
  unfold regGet regInsert
  by_cases hmem : m.any (fun p => decide (p.1 = k)) = true
  · rw [if_pos hmem, find?_keyUpdate_self k v m hmem]
    rfl
  · rw [if_neg hmem, List.find?_append]
    have h1 : m.find? (fun p => decide (p.1 = k)) = none := by
      rw [List.find?_eq_none]
      intro x hx
      simp only [List.any_eq_true] at hmem
      intro hc
      exact hmem ⟨x, hx, hc⟩
    rw [h1]
    simp

/-- Operations targeting other jobs do not change this job's entry. -/
theorem applyOp_other (m : Registry) (op : JobOp) (j : Nat)
    (h : op.target ≠ j) : regGet (applyOp m op) j = regGet m j := by
  cases op with
  | create id =>
    exact regGet_regInsert_ne m id _ j (fun hh => h hh.symm)
  | cancel id =>
    simp only [applyOp]
    cases regGet m id with
    | none => rfl
    | some jr => exact regGet_regInsert_ne m id _ j (fun hh => h hh.symm)
  | run id mc =>
    simp only [applyOp]
    cases regGet m id with
    | none => rfl
    | some jr => exact regGet_regInsert_ne m id _ j (fun hh => h hh.symm)

/-- The registry invariant coupling terminal statuses to the cancellation
flag: a completed job has a cleared flag, a cancelled job a set one. -/
def StatusFlagInv (m : Registry) : Prop :=
  ∀ k jr, regGet m k = some jr →
    (jr.status = "completed" → jr.flag = false) ∧
    (jr.status = "cancelled" → jr.flag = true)

/-- Every operation preserves the status/flag invariant. -/
theorem statusFlagInv_applyOp (m : Registry) (hm : StatusFlagInv m)
    (op : JobOp) : StatusFlagInv (applyOp m op) := by
  intro k jr hget
  cases op with
  | create id =>
    simp only [applyOp] at hget
    by_cases hk : k = id
    · subst hk
      rw [regGet_regInsert_self] at hget
      have := Option.some.inj hget
      subst this
      constructor <;> intro hs <;> simp at hs
    · rw [regGet_regInsert_ne _ _ _ _ hk] at hget
      exact hm k jr hget
  | cancel id =>
    simp only [applyOp] at hget
    cases hg : regGet m id with
    | none => rw [hg] at hget; exact hm k jr hget
    | some j2 =>
      rw [hg] at hget
      by_cases hk : k = id
      · subst hk
        rw [regGet_regInsert_self] at hget
        have := Option.some.inj hget
        subst this
        constructor <;> intro hs <;> simp at hs
      · rw [regGet_regInsert_ne _ _ _ _ hk] at hget
        exact hm k jr hget
  | run id mc =>
    simp only [applyOp] at hget
    cases hg : regGet m id with
    | none => rw [hg] at hget; exact hm k jr hget
    | some j2 =>
      rw [hg] at hget
      by_cases hk : k = id
      · subst hk
        rw [regGet_regInsert_self] at hget
        have := Option.some.inj hget
        subst this
        by_cases hf : (j2.flag || mc) = true
        · simp only [hf, if_pos]
          exact ⟨fun hs => by simp at hs, fun _ => trivial⟩
        · rw [Bool.not_eq_true] at hf
          simp only [hf, Bool.false_eq_true, if_false]
          exact ⟨fun _ => trivial, fun hs => by simp at hs⟩
      · rw [regGet_regInsert_ne _ _ _ _ hk] at hget
        exact hm k jr hget

/-- The invariant holds for every registry built from the empty one. -/
theorem statusFlagInv_applyOps (ops : List JobOp) :
    StatusFlagInv (applyOps ops) := by
  have base : StatusFlagInv [] := by
    intro k jr hget
    simp [regGet] at hget
  unfold applyOps
  generalize ([] : Registry) = m0 at base ⊢
  revert m0
  induction ops with
  | nil => intro m0 base; exact base
  | cons op rest ih =>
    intro m0 base
    exact ih (applyOp m0 op) (statusFlagInv_applyOp m0 base op)

/-- Does an operation respect a terminal job `j`: it may target any other
job freely, and may re-run `j` only without a concurrent cancel. -/
def respectsTerminal (j : Nat) : JobOp → Bool
  | .create i => decide (i ≠ j)
  | .cancel i => decide (i ≠ j)
  | .run i mc => decide (i ≠ j) || !mc

/-- Stepping a terminal job through respectful operations keeps its
status. -/
theorem foldl_terminal_stable (j : Nat) (s : String)
    (hterm : s = "completed" ∨ s = "cancelled") :
    ∀ (post : List JobOp) (m : Registry) (jr : JobReg),
      StatusFlagInv m → regGet m j = some jr → jr.status = s →
      post.all (respectsTerminal j) = true →
      ∃ jr2, regGet (post.foldl applyOp m) j = some jr2 ∧ jr2.status = s := by
  intro post
  induction post with
  | nil => intro m jr hinv hget hst _; exact ⟨jr, hget, hst⟩
  | cons op rest ih =>
    intro m jr hinv hget hst hall
    simp only [List.all_cons, Bool.and_eq_true] at hall
    simp only [List.foldl_cons]
    by_cases htar : op.target = j
    · cases op with
      | create i =>
        exfalso
        simp only [JobOp.target] at htar
        subst htar
        simp [respectsTerminal] at hall
      | cancel i =>
        exfalso
        simp only [JobOp.target] at htar
        subst htar
        simp [respectsTerminal] at hall
      | run i mc =>
        simp only [JobOp.target] at htar
        have hmc : mc = false := by
          have h1 := hall.1
          simp [respectsTerminal, htar] at h1
          exact h1
        subst hmc
        have hstep : regGet (applyOp m (JobOp.run i false)) j =
            some { status := if jr.flag then "cancelled" else "completed",
                   flag := jr.flag } := by
          rw [htar]
          simp only [applyOp, hget, Bool.or_false]
          exact regGet_regInsert_self m j _
        have hnewst :
            (if jr.flag then "cancelled" else "completed") = s := by
          rcases hterm with h | h
          · have hf : jr.flag = false := (hinv j jr hget).1 (by rw [hst, h])
            rw [hf, h]
            rfl
          · have hf : jr.flag = true := (hinv j jr hget).2 (by rw [hst, h])
            rw [hf, h]
            rfl
        exact ih (applyOp m (JobOp.run i false)) _
          (statusFlagInv_applyOp m hinv _) hstep hnewst hall.2
    · have hstep := applyOp_other m op j htar
      exact ih (applyOp m op) jr (statusFlagInv_applyOp m hinv op)
        (by rw [hstep]; exact hget) hst hall.2

/-- C6 (amended): once a job's status is a terminal `completed` or
`cancelled`, later operations keep it there, as long as none of them is a
`cancel_job` of that same job, a colliding `create_job` of its id, or a
`run_translation` of it with a concurrent cancellation; in particular a
plain re-run of a terminal job leaves its status unchanged.  (The
unamended claim — NO subsequent operation changes a terminal status — is
refuted by `c6_cancel_after_completion_counterexample`.) -/
theorem c6_terminal_status_stable (pre post : List JobOp) (j : Nat)
    (jr : JobReg) (hterm : jr.status = "completed" ∨ jr.status = "cancelled")
    (hpre : regGet (applyOps pre) j = some jr)
    (hpost : post.all (respectsTerminal j) = true) :
    ∃ jr2, regGet (applyOps (pre ++ post)) j = some jr2 ∧
      jr2.status = jr.status := by
  have happ : applyOps (pre ++ post) = post.foldl applyOp (applyOps pre) := by
    unfold applyOps
    rw [List.foldl_append]
  rw [happ]
  exact foldl_terminal_stable j jr.status hterm post (applyOps pre) jr
    (statusFlagInv_applyOps pre) hpre rfl hpost

/-- C6 witness: a completed job stays completed across the creation,
cancellation and (cancelled) run of a second job and a plain re-run of
itself. -/
theorem c6_terminal_status_stable_witness :
    ∃ jr2, regGet (applyOps ([JobOp.create 0, JobOp.run 0 false] ++
        [JobOp.create 1, JobOp.cancel 1, JobOp.run 1 true,
         JobOp.run 0 false])) 0 = some jr2 ∧ jr2.status = "completed" :=
  c6_terminal_status_stable [JobOp.create 0, JobOp.run 0 false]
    [JobOp.create 1, JobOp.cancel 1, JobOp.run 1 true, JobOp.run 0 false] 0
    { status := "completed", flag := false } (Or.inl rfl) (by decide)
    (by decide)

/-- C6 counterexample: the claim as stated is false.  After
`create_job; run_translation` the job is `completed` — terminal — yet a
subsequent `cancel_job` call moves its status to `cancelling` (the code
sets the flag and the `cancelling` status whenever the job id exists,
with no terminal-state guard). -/
theorem c6_cancel_after_completion_counterexample :
    regGet (applyOps [JobOp.create 0, JobOp.run 0 false]) 0 =
      some { status := "completed", flag := false } ∧
    regGet (applyOps [JobOp.create 0, JobOp.run 0 false, JobOp.cancel 0]) 0 =
      some { status := "cancelling", flag := true } := by
  refine ⟨by decide, by decide⟩

/-! ### Claim C7: ordering under concurrency (`_translate_file_parallel`)

`_translate_file_parallel` pre-allocates `translated = [None] * total` and
each worker writes `translated[idx] = result` for its own index, so the
final list depends only on which indices completed, not on the completion
order.  The completion order is modelled as the list of indices in the
order their slot writes land; a successful file is one whose completion
order is a permutation of all indices. -/

/-- One slot write: worker `i` stores the translation of cue `i` into its
own slot. -/
def writeOne (f : Subtitle → Subtitle) (subs : List Subtitle)
    (acc : List (Option Subtitle)) (i : Nat) : List (Option Subtitle) :=
  match subs[i]? with
  | some sub => acc.set i (some (f sub))
  | none => acc

/-- All slot writes of one file, landing in completion order `order`,
starting from the pre-allocated all-`none` list. -/
def runSchedule (f : Subtitle → Subtitle) (subs : List Subtitle)
    (order : List Nat) : List (Option Subtitle) :=
  order.foldl (writeOne f subs) (List.replicate subs.length none)

/-- A slot write keeps the slot list length. -/
theorem writeOne_length (f : Subtitle → Subtitle) (subs : List Subtitle)
    (acc : List (Option Subtitle)) (i : Nat) :
    (writeOne f subs acc i).length = acc.length := by
  unfold writeOne
  cases subs[i]? <;> simp

/-- What each slot holds after a batch of writes: its own translation when
its index was written, the previous content otherwise. -/
theorem foldl_writeOne_getElem (f : Subtitle → Subtitle) (subs : List Subtitle) :
    ∀ (order : List Nat) (acc : List (Option Subtitle)),
      acc.length = subs.length →
      ∀ j, j < subs.length →
        (order.foldl (writeOne f subs) acc)[j]? =
          if j ∈ order then (subs[j]?).map (fun s => some (f s))
          else acc[j]? := by
  intro order
  induction order with
  | nil =>
    intro acc hlen j hj
    simp
  | cons i rest ih =>
    intro acc hlen j hj
    simp only [List.foldl_cons]
    have hlen2 : (writeOne f subs acc i).length = subs.length := by
      rw [writeOne_length, hlen]
    rw [ih (writeOne f subs acc i) hlen2 j hj]
    by_cases hr : j ∈ rest
    · rw [if_pos hr, if_pos (List.mem_cons_of_mem i hr)]
    · rw [if_neg hr]
      by_cases hij : j = i
      · subst hij
        rw [if_pos (List.mem_cons_self j rest)]
        unfold writeOne
        cases hs : subs[j]? with
        | none =>
          exfalso
          rw [List.getElem?_eq_none_iff] at hs
          omega
        | some sub =>
          rw [List.getElem?_set]
          rw [if_pos rfl, if_pos (by omega : j < acc.length)]
          rfl
      · have hnotin : j ∉ (i :: rest) := by
          simp [hij, hr]
        rw [if_neg hnotin]
        unfold writeOne
        cases subs[i]? with
        | none => rfl
        | some sub => rw [List.getElem?_set_ne (fun h => hij h.symm)]

/-- The slot writes of a permutation of all indices produce exactly the
elementwise translation of the parsed input, in input order. -/
theorem runSchedule_perm (f : Subtitle → Subtitle) (subs : List Subtitle)
    (order : List Nat) (hperm : order.Perm (List.range subs.length)) :
    runSchedule f subs order = subs.map (fun s => some (f s)) := by
  have hlenfold : ∀ (o : List Nat) (acc : List (Option Subtitle)),
      (o.foldl (writeOne f subs) acc).length = acc.length := by
    intro o
    induction o with
    | nil => intro acc; rfl
    | cons i rest ih =>
      intro acc
      rw [List.foldl_cons, ih, writeOne_length]
  unfold runSchedule
  apply List.ext_getElem?
  intro j
  by_cases hj : j < subs.length
  · rw [foldl_writeOne_getElem f subs order (List.replicate subs.length none)
      (by simp) j hj]
    have hmem : j ∈ order := by
      rw [hperm.mem_iff, List.mem_range]
      exact hj
    rw [if_pos hmem, List.getElem?_map]
  · have hLHS : (List.foldl (writeOne f subs)
        (List.replicate subs.length none) order)[j]? = none := by
      apply List.getElem?_eq_none
      rw [hlenfold]
      simp only [List.length_replicate]
      omega
    have hRHS : (subs.map (fun s => some (f s)))[j]? = none := by
      apply List.getElem?_eq_none
      simp only [List.length_map]
      omega
    rw [hLHS, hRHS]

/-- C7: for a successfully translated file the output slots equal the
input cue list, elementwise translated and in input order, for every
completion order of the concurrent per-cue translations; and
`translate_subtitle` keeps the index, start and end of its cue, changing
only the content. -/
theorem c7_order_independent_and_fields_preserved (tr : SRTTranslator)
    (subs : List Subtitle) (order : List Nat)
    (hperm : order.Perm (List.range subs.length)) :
    runSchedule (translate_subtitle tr) subs order =
      subs.map (fun s => some (translate_subtitle tr s)) ∧
    (runSchedule (translate_subtitle tr) subs order).length = subs.length ∧
    (∀ sub : Subtitle,
      (translate_subtitle tr sub).index = sub.index ∧
      (translate_subtitle tr sub).start = sub.start ∧
      (translate_subtitle tr sub).endTime = sub.endTime) := by
  refine ⟨runSchedule_perm (translate_subtitle tr) subs order hperm, ?_, ?_⟩
  · rw [runSchedule_perm (translate_subtitle tr) subs order hperm]
    simp
  · intro sub
    exact ⟨rfl, rfl, rfl⟩

/-- C7 witness: two cues whose writes land in reversed completion order
still fill the slots in input order. -/
theorem c7_order_independent_witness :
    ([1, 0].Perm (List.range 2)) ∧
    runSchedule (translate_subtitle identityTranslator)
        [{ index := 1, start := 0, endTime := 2, content := "ab".data },
         { index := 2, start := 3, endTime := 4, content := "cd".data }]
        [1, 0] =
      [some (translate_subtitle identityTranslator
        { index := 1, start := 0, endTime := 2, content := "ab".data }),
       some (translate_subtitle identityTranslator
        { index := 2, start := 3, endTime := 4, content := "cd".data })] :=
  ⟨by decide,
    (c7_order_independent_and_fields_preserved identityTranslator
      [{ index := 1, start := 0, endTime := 2, content := "ab".data },
       { index := 2, start := 3, endTime := 4, content := "cd".data }]
      [1, 0] (by decide)).1⟩

/-! ### Claim C9: cancellation stops not-yet-started cue translations

Model of `_translate_one`: each worker owns two checkpoints — `t1`, the
`cancel_event.is_set()` check before awaiting the semaphore, and `t2`, the
re-check immediately after acquiring it.  Between the `t2` check and the
dispatch of `translator.translate_subtitle` the coroutine never awaits, so
under the cooperative asyncio scheduler no cancellation can interleave
there: a worker that passes the `t2` check issues its call at `t2`.  The
cancellation signal is the monotone flag set at step `T`. -/

/-- The observable outcome of one worker. -/
inductive WorkerResult where
  | cancelled
  | done (r : Subtitle) (callTime : Nat)
deriving DecidableEq

/-- `_translate_one`: check before admission, check again after
admission, then translate. -/
def translate_one (cA : Option Nat) (t1 t2 : Nat) (f : Subtitle → Subtitle)
    (sub : Subtitle) : WorkerResult :=
  if isSet cA t1 then .cancelled
  else if isSet cA t2 then .cancelled
  else .done (f sub) t2

/-- All workers of one file; each entry is a cue with its two checkpoint
times. -/
def runWorkers (cA : Option Nat) (f : Subtitle → Subtitle)
    (jobs : List (Subtitle × Nat × Nat)) : List WorkerResult :=
  jobs.map (fun j => translate_one cA j.2.1 j.2.2 f j.1)

/-- The output slot contributed by each worker. -/
def workerSlots (rs : List WorkerResult) : List (Option Subtitle) :=
  rs.map (fun r => match r with | .done x _ => some x | .cancelled => none)

/-- The number of progress increments (one per completed worker). -/
def workerProgress (rs : List WorkerResult) : Nat :=
  rs.countP (fun r => match r with | .done _ _ => true | .cancelled => false)

/-- The times at which translation calls were issued. -/
def workerCalls (rs : List WorkerResult) : List Nat :=
  rs.filterMap (fun r => match r with | .done _ t => some t | .cancelled => none)

/-- C9: once the cancellation signal is set (at step `T`), no translation
that has not started yet ever starts: a worker whose post-admission check
happens at or after `T` raises `CancelledError` instead of translating and
contributes neither an output slot nor progress; every issued call
happened strictly before `T`; and the progress count equals the number of
workers dispatched before the signal. -/
theorem c9_cancellation_blocks_undispatched (T : Nat) (f : Subtitle → Subtitle)
    (jobs : List (Subtitle × Nat × Nat))
    (horder : ∀ j ∈ jobs, j.2.1 ≤ j.2.2) :
    (∀ (i : Nat) (j : Subtitle × Nat × Nat), jobs[i]? = some j → T ≤ j.2.2 →
      (runWorkers (some T) f jobs)[i]? = some WorkerResult.cancelled ∧
      (workerSlots (runWorkers (some T) f jobs))[i]? = some none) ∧
    (∀ ct ∈ workerCalls (runWorkers (some T) f jobs), ct < T) ∧
    workerProgress (runWorkers (some T) f jobs) =
      jobs.countP (fun j => decide (j.2.2 < T)) := by
  have hcanc : ∀ j : Subtitle × Nat × Nat, T ≤ j.2.2 →
      translate_one (some T) j.2.1 j.2.2 f j.1 = .cancelled := by
    intro j hT
    unfold translate_one
    by_cases h1 : isSet (some T) j.2.1 = true
    · rw [if_pos h1]
    · rw [if_neg h1, if_pos (by simp [isSet, hT])]
  refine ⟨?_, ?_, ?_⟩
  · intro i j hget hT
    have hr : (runWorkers (some T) f jobs)[i]? = some WorkerResult.cancelled := by
      unfold runWorkers
      rw [List.getElem?_map, hget, Option.map_some', hcanc j hT]
    refine ⟨hr, ?_⟩
    unfold workerSlots
    rw [List.getElem?_map, hr, Option.map_some']
  · intro ct hct
    unfold workerCalls runWorkers at hct
    rw [List.mem_filterMap] at hct
    obtain ⟨r, hrmem, hr⟩ := hct
    rw [List.mem_map] at hrmem
    obtain ⟨j, _, hj⟩ := hrmem
    subst hj
    unfold translate_one at hr
    by_cases h1 : isSet (some T) j.2.1 = true
    · rw [if_pos h1] at hr
      simp at hr
    · rw [if_neg h1] at hr
      by_cases h2 : isSet (some T) j.2.2 = true
      · rw [if_pos h2] at hr
        simp at hr
      · rw [if_neg h2] at hr
        have := Option.some.inj hr
        simp [isSet] at h2
        omega
  · unfold workerProgress runWorkers
    rw [List.countP_map]
    apply List.countP_congr
    intro j hj
    have hord := horder j hj
    unfold translate_one
    simp only [Function.comp_apply]
    by_cases h1 : isSet (some T) j.2.1 = true
    · rw [if_pos h1]
      simp only [isSet, decide_eq_true_eq] at h1
      simp only [decide_eq_true_eq]
      constructor
      · intro hcon
        simp at hcon
      · intro hlt
        omega
    · rw [if_neg h1]
      simp only [isSet, decide_eq_true_eq] at h1
      by_cases h2 : isSet (some T) j.2.2 = true
      · rw [if_pos h2]
        simp only [isSet, decide_eq_true_eq] at h2
        simp only [decide_eq_true_eq]
        constructor
        · intro hcon
          simp at hcon
        · intro hlt
          omega
      · rw [if_neg h2]
        simp only [isSet, decide_eq_true_eq] at h2
        simp only [decide_eq_true_eq]
        constructor
        · intro _
          omega
        · intro _
          trivial

/-- C9 witness: with the signal set at step 5, the worker whose
post-admission check happens at step 6 never starts — its slot stays
empty and only the one already-dispatched worker counts as progress. -/
theorem c9_cancellation_blocks_undispatched_witness :
    ((runWorkers (some 5) (translate_subtitle identityTranslator)
        [({ index := 1, start := 0, endTime := 2, content := "a".data }, 0, 1),
         ({ index := 2, start := 3, endTime := 4, content := "b".data }, 2, 6)])[1]? =
      some WorkerResult.cancelled) ∧
    workerProgress (runWorkers (some 5) (translate_subtitle identityTranslator)
        [({ index := 1, start := 0, endTime := 2, content := "a".data }, 0, 1),
         ({ index := 2, start := 3, endTime := 4, content := "b".data }, 2, 6)]) = 1 := by
  have h := c9_cancellation_blocks_undispatched 5
    (translate_subtitle identityTranslator)
    [({ index := 1, start := 0, endTime := 2, content := "a".data }, 0, 1),
     ({ index := 2, start := 3, endTime := 4, content := "b".data }, 2, 6)]
    (by decide)
  refine ⟨(h.1 1 ({ index := 2, start := 3, endTime := 4, content := "b".data }, 2, 6)
    (by decide) (by decide)).1, ?_⟩
  rw [h.2.2]
  decide

/-! ### Claim C8: temp-file cleanup in run_translation

`run_translation` writes the matching-words and removal-words temp files
first (each only when its word list is nonempty), and unlinks whichever of
them exist in a loop at the very end of its body.  That cleanup loop is
NOT inside a `try/finally`: every statement between the temp writes and
the cleanup that can raise — the `SRTTranslator(...)` construction and
each awaited `progress_callback(...)` (the file loop catches its own
per-file exceptions, but not callback failures) — exits the coroutine
without reaching the unlink loop.  The model tracks which temp files
exist, lets an oracle decide whether the construction raises and whether
the callback raises at its `k`-th invocation (the events of the C5 model
are exactly the callback invocations), and performs the cleanup only on
the fall-through path, as the code does. -/

/-- Which of the two temp files currently exist. -/
structure TempState where
  matching : Bool
  removal : Bool
deriving DecidableEq

/-- `_write_temp_matching`: create the file only for a nonempty list,
returning its path. -/
def write_temp_matching (words : List String) (fs : TempState) :
    Option String × TempState :=
  if words = [] then (none, fs)
  else (some "matching.tmp", { fs with matching := true })

/-- `_write_temp_removal`. -/
def write_temp_removal (words : List String) (fs : TempState) :
    Option String × TempState :=
  if words = [] then (none, fs)
  else (some "removal.tmp", { fs with removal := true })

/-- The final `for path in (matching_file, removal_file): os.unlink(path)`
loop, unlinking each file whose path is not `None`. -/
def cleanup_temp (mf rf : Option String) (fs : TempState) : TempState :=
  let fs1 := match mf with
    | some _ => { fs with matching := false }
    | none => fs
  match rf with
  | some _ => { fs1 with removal := false }
  | none => fs1

/-- `run_translation` with its temp-file management: write both files,
then run the body; an exception from the translator construction, or from
the progress callback at its `k`-th invocation, propagates before the
cleanup loop runs; on normal fall-through (completion or cancellation,
per-file errors included) the created files are unlinked. -/
def run_translation_cleanup (files : List (String × FOutcome))
    (cA : Option Nat) (ctorRaises : Bool) (cbFailAt : Option Nat)
    (matching_words removal_words : List String) (fs0 : TempState) :
    TempState × Except String Unit :=
  let m := write_temp_matching matching_words fs0
  let r := write_temp_removal removal_words m.2
  if ctorRaises then (r.2, .error "translator construction failed")
  else
    match cbFailAt with
    | some k =>
      if k < (run_translation files cA).1.length then
        (r.2, .error "progress callback raised")
      else (cleanup_temp m.1 r.1 r.2, .ok ())
    | none => (cleanup_temp m.1 r.1 r.2, .ok ())

/-- Cleaning up what the two writes created restores a clean disk. -/
theorem cleanup_temp_write (mw rw : List String) :
    cleanup_temp (write_temp_matching mw ⟨false, false⟩).1
      (write_temp_removal rw (write_temp_matching mw ⟨false, false⟩).2).1
      (write_temp_removal rw (write_temp_matching mw ⟨false, false⟩).2).2 =
      ⟨false, false⟩ := by
  by_cases hm : mw = [] <;> by_cases hr : rw = [] <;>
    simp [write_temp_matching, write_temp_removal, cleanup_temp, hm, hr]

/-- C8 (amended): whenever `run_translation` returns normally — the job
completes, is cancelled, or records per-file errors — both temp files are
deleted; an exception escaping the body (translator construction, or a
raising progress callback) bypasses the cleanup.  (The unamended claim —
deletion on EVERY exit path including exceptions — is refuted by
`c8_exception_leaks_temp_files`.) -/
theorem c8_cleanup_on_normal_return (files : List (String × FOutcome))
    (cA : Option Nat) (ctorRaises : Bool) (cbFailAt : Option Nat)
    (mw rw : List String)
    (hok : (run_translation_cleanup files cA ctorRaises cbFailAt mw rw
      ⟨false, false⟩).2 = .ok ()) :
    (run_translation_cleanup files cA ctorRaises cbFailAt mw rw
      ⟨false, false⟩).1 = ⟨false, false⟩ := by
  unfold run_translation_cleanup at hok ⊢
  by_cases hc : ctorRaises = true
  · rw [if_pos hc] at hok
    exact absurd hok (by simp)
  · rw [if_neg hc] at hok ⊢
    cases cbFailAt with
    | none => exact cleanup_temp_write mw rw
    | some k =>
      dsimp only at hok ⊢
      by_cases hk : k < (run_translation files cA).1.length
      · rw [if_pos hk] at hok
        exact absurd hok (by simp)
      · rw [if_neg hk]
        exact cleanup_temp_write mw rw

/-- C8 witness: a normal run that created both temp files deletes both. -/
theorem c8_cleanup_on_normal_return_witness :
    (run_translation_cleanup [("a.srt", FOutcome.run [] FileResult.okDone)]
      none false none ["x --> y"] ["w"] ⟨false, false⟩).2 = .ok () ∧
    (run_translation_cleanup [("a.srt", FOutcome.run [] FileResult.okDone)]
      none false none ["x --> y"] ["w"] ⟨false, false⟩).1 = ⟨false, false⟩ :=
  ⟨rfl,
    c8_cleanup_on_normal_return [("a.srt", FOutcome.run [] FileResult.okDone)]
      none false none ["x --> y"] ["w"] rfl⟩

/-- C8 counterexample: the claim as stated is false.  A failure of the
translator construction after the matching-words file was written leaves
that file on disk, and a progress callback that raises at the first event
leaves the removal-words file on disk: the cleanup loop is skipped on the
exception paths. -/
theorem c8_exception_leaks_temp_files :
    (run_translation_cleanup [] none true none ["a --> b"] []
      ⟨false, false⟩) =
      (⟨true, false⟩, .error "translator construction failed") ∧
    (run_translation_cleanup [("a.srt", FOutcome.run [] FileResult.okDone)]
      none false (some 0) [] ["w"] ⟨false, false⟩).1 = ⟨false, true⟩ := by
  refine ⟨rfl, rfl⟩

end SrtTranslator
